import Mathlib

/-!
# Verification of the `rasterm` terminal-graphics library

A shallow embedding of the core logic of the `rasterm` Go package
(terminal capability detection, Kitty chunk framing, encoder registry
and the default resolver), with theorems settling the specification
claims about it.

External effects (file descriptors, timers, the terminal itself) are
modelled by an explicit oracle record describing one execution's
observable outcomes; the Go control flow is translated syscall-for-
syscall from `term_unix.go` and the package sources.
-/

namespace Rasterm

/-- The package's error values (`Error` constants in the source), plus
`ioError` for errors coming from the operating system (read/write/raw-mode
/restore failures), which are distinct from every package error constant. -/
inductive GoError where
  | nonTTY
  | timedOut
  | graphicsNotAvailable
  | unknownTermType
  | ioError (code : Nat)
  deriving DecidableEq, Repr

/-- Oracle for one execution of `termRequestResponse`: the outcome of each
external interaction.  `none` for an error field means that syscall
succeeded.  `timerFired` records whether the 1/16-second timer fired before
`t.Stop()` was called (i.e. `t.Stop()` returned `false`). -/
structure TermEnv where
  isTerminal : Bool
  makeRawErr : Option Nat
  writeErr : Option Nat
  readN : Nat
  readBytes : List Nat
  readErr : Option Nat
  timerFired : Bool
  restoreErr : Option Nat
  deriving DecidableEq, Repr

/-- Observable events of one `termRequestResponse` call, used to state the
ordering claims.  `rawEntered` is the successful `term.MakeRaw`,
`reqWritten` the request write, `readDone` the completion of `in.Read`,
`helperDone` the completion of the timer-helper goroutine (joined by
`wg.Wait()`), and `restored` the deferred `term.Restore`. -/
inductive Ev where
  | rawEntered
  | reqWritten
  | readDone
  | helperDone
  | restored
  deriving DecidableEq, Repr

/-- `termRequestResponse` from `term_unix.go`, returning both the Go
result `(sRsp, err)` and the trace of observable events in the order the
code guarantees them (the `defer`red restore runs after `wg.Wait()` has
joined the helper goroutine, on every path past a successful `MakeRaw`).

Faithful control flow:
* non-terminal input returns `ErrNonTTY` before raw mode is entered;
* a `MakeRaw` failure returns its error with no restore;
* a request-write failure returns through the `defer`, which only captures
  the restore error when `err` is still `nil`;
* after the read, `t.Stop()` failing (timer already fired) overwrites
  `err` with `ErrTermResponseTimedOut`;
* `n > 0 && errors.Is(err, ErrTermResponseTimedOut)` returns `buf[:n]`
  with `err = nil`, so the `defer` then surfaces any restore error;
* otherwise `(nil, err)` is returned, the `defer` substituting the restore
  error only when `err` is `nil`.  A read error is an OS error and is
  never the package constant `ErrTermResponseTimedOut`, which is modelled
  by mapping it to `GoError.ioError`. -/
def termRequestResponseFull (env : TermEnv) :
    (Option (List Nat) × Option GoError) × List Ev :=
  if !env.isTerminal then ((none, some .nonTTY), [])
  else
    match env.makeRawErr with
    | some e => ((none, some (.ioError e)), [])
    | none =>
      let restore : Option GoError := env.restoreErr.map .ioError
      match env.writeErr with
      | some e => ((none, some (.ioError e)), [.rawEntered, .restored])
      | none =>
        let trace : List Ev :=
          [.rawEntered, .reqWritten, .readDone, .helperDone, .restored]
        let n := env.readN
        let err0 : Option GoError := env.readErr.map .ioError
        let err1 : Option GoError :=
          if env.timerFired then some .timedOut else err0
        if n > 0 ∧ err1 = some .timedOut then
          ((some (env.readBytes.take n), restore), trace)
        else
          ((none, if err1 = none then restore else err1), trace)

/-- The Go return value of `termRequestResponse`. -/
def termRequestResponse (env : TermEnv) : Option (List Nat) × Option GoError :=
  (termRequestResponseFull env).1

/-- The event trace of one `termRequestResponse` call. -/
def termRequestResponseTrace (env : TermEnv) : List Ev :=
  (termRequestResponseFull env).2

/-- ASCII decimal digit test on a byte, matching the `\d` class of the
`numRE` regular expression. -/
def isDigitByte (b : Nat) : Bool := 48 ≤ b && b ≤ 57

/-- Value of a run of decimal digit bytes, as `strconv.Atoi` computes it.
(`Atoi`'s only failure mode on an all-digit string is int64 range overflow,
which clamps to a huge value; values as small as `4` are unaffected, and
the code discards the error.) -/
def atoiDigits (run : List Nat) : Nat :=
  run.foldl (fun acc b => acc * 10 + (b - 48)) 0

/-- `numRE.FindAll(text, -1)` followed by `strconv.Atoi` on each match:
extract every maximal run of decimal digits, in order of appearance, and
convert each to an integer. -/
def parseNums : List Nat → List Nat
  | [] => []
  | b :: bs =>
    if isDigitByte b then
      atoiDigits (b :: bs.takeWhile isDigitByte) ::
        parseNums (bs.dropWhile isDigitByte)
    else
      parseNums bs
termination_by l => l.length
decreasing_by
  · exact Nat.lt_succ_of_le (List.dropWhile_sublist isDigitByte).length_le
  · exact Nat.lt_succ_self _

/-- `termAttributes` from `term_unix.go`: run the device-attributes
request `ESC [ 0 c` and parse the numeric runs of the reply.  Any error
from `termRequestResponse` is propagated; on success (`err == nil`) the
reply bytes — `nil` in the quirky "read finished before the timer" case —
are scanned for numbers. -/
def termAttributes (env : TermEnv) : Except GoError (List Nat) :=
  match termRequestResponse env with
  | (_, some e) => .error e
  | (text, none) => .ok (parseNums (text.getD []))

/-- `hasSixelSupport` from `term_unix.go`: query the attributes and scan
for the value `4` at an index other than 0 (index 0 is the terminal id).
Every failure of the query yields `false`; the function is boolean and
surfaces no error. -/
def hasSixelSupport (env : TermEnv) : Bool :=
  match termAttributes env with
  | .error _ => false
  | .ok attrs => attrs.enum.any fun p => 0 < p.1 && p.2 = 4

/-- `chunkEncode`'s loop from the Kitty encoder, as the list of emitted
chunk control sequences after the preamble: each element is the pair
`(m, payload)` of the continuation flag and the payload slice `buf[i:j]`.

The Go loop starts at `i, j = 0, min(size, n)` and runs while `i < n`,
setting `m = 1` exactly when `j < n`; so a buffer of at most `size` bytes
yields the single chunk `(0, buf)`, a longer one yields `(1, buf[:size])`
followed by the chunks of `buf[size:]`, and an empty buffer yields no
chunks at all.  (With `size = 0` the Go loop would never advance; the
encoder only calls it with `size = 4096`, and the model returns `[]`
there to stay total.) -/
def chunkEncode (size : Nat) (buf : List Nat) : List (Nat × List Nat) :=
  if size = 0 ∨ buf = [] then []
  else if buf.length ≤ size then [(0, buf)]
  else (1, buf.take size) :: chunkEncode size (buf.drop size)
termination_by buf.length
decreasing_by
  rename_i h _
  simp only [not_or] at h
  have hs : 0 < size := Nat.pos_of_ne_zero h.1
  have hb : 0 < buf.length := List.length_pos.mpr h.2
  simpa using Nat.sub_lt hb hs

/-- The bytes of the Kitty preamble `ESC _ G a=T,f=100,m=1 ; ESC \`,
written by `chunkEncode` before any chunk. -/
def kittyPreamble : List Nat :=
  [27, 95, 71, 97, 61, 84, 44, 102, 61, 49, 48, 48, 44, 109, 61, 49, 59, 27, 92]

/-- `strings.ToLower`, modelled as per-character lowercasing of the
string's characters (every token and environment value the code compares
against is ASCII, where `Char.toLower` agrees with Go's rune
lowercasing). -/
def strToLower (s : String) : String :=
  ⟨s.data.map Char.toLower⟩

/-- The read-only environment signals the availability predicates consult,
plus the terminal-I/O oracle that `hasSixelSupport` probes.  Each string
field is the raw value of the corresponding environment variable. -/
structure Env where
  term_graphics : String
  term : String
  term_program : String
  lc_terminal : String
  detect : TermEnv

/-- `hasTermGraphics` from the encoder source: whether the lowercased
`$TERM_GRAPHICS` equals `typ`.  (The Go code caches the lowercased value
behind a `sync.Once`; the variable never changes, so the cached value is
the lowercased environment value.) -/
def hasTermGraphics (env : Env) (typ : String) : Bool :=
  typ == strToLower env.term_graphics

/-- `KittyEncoder.Available`. -/
def kittyAvailable (env : Env) : Bool :=
  !hasTermGraphics env "none" &&
    (hasTermGraphics env "kitty" ||
      strToLower env.term == "xterm-kitty" ||
      strToLower env.term_program == "ghostty")

/-- `ITermEncoder.Available`. -/
def itermAvailable (env : Env) : Bool :=
  !hasTermGraphics env "none" &&
    (hasTermGraphics env "iterm" ||
      strToLower env.term == "mintty" ||
      strToLower env.lc_terminal == "iterm2" ||
      strToLower env.term_program == "wezterm")

/-- `SixelEncoder.Available`. -/
def sixelAvailable (env : Env) : Bool :=
  !hasTermGraphics env "none" &&
    (hasTermGraphics env "sixel" || hasSixelSupport env.detect)

/-- An encoder as the resolver and registry observe it: its `Available()`
value and the `(bytes written, error)` outcome its `Encode` would produce
on the image at hand (the pixel codecs are external, so the outcome is
carried as data). -/
structure EncoderM where
  avail : Bool
  enc : List Nat × Option GoError
  deriving DecidableEq, Repr

/-- The mutable fields of `DefaultEncoder`: the chosen encoder `r`, the
cached resolution error `err`, and the `sync.Once` guard, modelled by the
`onceDone` flag.  `probes` is ghost instrumentation counting how many
times the probing body `init` has actually run. -/
structure DState where
  r : Option EncoderM
  err : Option GoError
  onceDone : Bool
  probes : Nat
  deriving DecidableEq, Repr

/-- `NewDefaultEncoder`: all fields zeroed. -/
def freshDefault : DState :=
  { r := none, err := none, onceDone := false, probes := 0 }

/-- The body of `(*DefaultEncoder).init`: pick the first encoder of `v`
whose `Available()` is true; if none was picked and `r` is still `nil`,
cache `ErrTermGraphicsNotAvailable`. -/
def initBody (v : List EncoderM) (s : DState) : DState :=
  match v.find? (fun z => z.avail) with
  | some z => { s with r := some z, probes := s.probes + 1 }
  | none =>
    if s.r = none then
      { s with err := some .graphicsNotAvailable, probes := s.probes + 1 }
    else { s with probes := s.probes + 1 }

/-- `r.once.Do(r.init)`: run `init` only the first time. -/
def onceDo (v : List EncoderM) (s : DState) : DState :=
  if s.onceDone then s else { initBody v s with onceDone := true }

/-- `(*DefaultEncoder).Available`: resolve once, then report
`r.r != nil && r.err == nil`. -/
def defaultAvailable (v : List EncoderM) (s : DState) : DState × Bool :=
  let t := onceDo v s
  (t, t.r.isSome && t.err.isNone)

/-- `(*DefaultEncoder).Encode`: resolve once, then return the cached
error (writing nothing), or delegate to the chosen encoder, or fall
through to `ErrTermGraphicsNotAvailable` (writing nothing). -/
def defaultEncode (v : List EncoderM) (s : DState) :
    DState × (List Nat × Option GoError) :=
  let t := onceDo v s
  if t.err.isSome then (t, ([], t.err))
  else
    match t.r with
    | some r => (t, r.enc)
    | none => (t, ([], some .graphicsNotAvailable))

/-- The ordered encoder list the package's `init` registers for `Default`:
`NewDefaultEncoder(kitty, iterm, sixel)`.  The `Encode` outcomes of the
three encoders are parameters, their availability comes from `env`. -/
def defaultList (env : Env) (ke ie se : List Nat × Option GoError) :
    List EncoderM :=
  [⟨kittyAvailable env, ke⟩, ⟨itermAvailable env, ie⟩, ⟨sixelAvailable env, se⟩]

/-- `TermType` is a `uint8`; values are naturals below 256.  `None = 0`,
`Kitty = 1`, `ITerm = 2`, `Sixel = 3`, `Default = ^TermType(0) = 255`. -/
def TermType := Nat

/-- `TermType.String` (the Go `switch` as an if-chain). -/
def termTypeString (typ : Nat) : String :=
  if typ = 1 then "kitty"
  else if typ = 2 then "iterm"
  else if typ = 3 then "sixel"
  else if typ = 255 then "default"
  else "none"

/-- `TermType.UnmarshalText` (the Go `switch` on the lowercased token as
an if-chain; the `default` case stores `None`).  It always returns `nil`,
so the model returns the stored value with no error component. -/
def termTypeUnmarshalText (s : String) : Nat :=
  let l := strToLower s
  if l = "kitty" then 1
  else if l = "iterm" then 2
  else if l = "sixel" then 3
  else if l = "" then 255
  else 0

/-- The `encoders` map built by the package's `init`: `Kitty`, `ITerm`
and `Sixel` map to their encoders and `Default` to the composite; every
other `TermType` value is absent. -/
def encodersMap (k i s d : EncoderM) (typ : Nat) : Option EncoderM :=
  if typ = 1 then some k
  else if typ = 2 then some i
  else if typ = 3 then some s
  else if typ = 255 then some d
  else none

/-- `TermType.Available`: delegate to the registered encoder, `false`
when none is registered. -/
def termTypeAvailable (k i s d : EncoderM) (typ : Nat) : Bool :=
  match encodersMap k i s d typ with
  | some e => e.avail
  | none => false

/-- `TermType.Encode`: delegate to the registered encoder, otherwise
return `ErrTermGraphicsNotAvailable` having written nothing. -/
def termTypeEncode (k i s d : EncoderM) (typ : Nat) :
    List Nat × Option GoError :=
  match encodersMap k i s d typ with
  | some e => e.enc
  | none => ([], some .graphicsNotAvailable)

/-- `a` strictly precedes `b` in `tr`: every occurrence of `a` is at a
smaller index than every occurrence of `b`. -/
def precedes (a b : Ev) (tr : List Ev) : Prop :=
  ∀ i j : Fin tr.length, tr.get i = a → tr.get j = b → (i : Nat) < j

/-- A call on the shared `DefaultEncoder`. -/
inductive DOp where
  | avail
  | encode
  deriving DecidableEq, Repr

/-- The state transition one call performs (both calls resolve through
`once.Do(init)` and otherwise leave the state alone). -/
def dStep (v : List EncoderM) (s : DState) : DOp → DState
  | .avail => (defaultAvailable v s).1
  | .encode => (defaultEncode v s).1

/-- The state after a sequence of `Available`/`Encode` calls. -/
def runOps (v : List EncoderM) (ops : List DOp) (s : DState) : DState :=
  ops.foldl (dStep v) s

example :
    termRequestResponse
      { isTerminal := true, makeRawErr := none, writeErr := none,
        readN := 2, readBytes := [27, 91, 99], readErr := none,
        timerFired := true, restoreErr := none } = (some [27, 91], none) := by
  decide

example :
    termRequestResponse
      { isTerminal := true, makeRawErr := none, writeErr := none,
        readN := 3, readBytes := [27, 91, 99], readErr := none,
        timerFired := false, restoreErr := none } = (none, none) := by
  decide

end Rasterm

namespace Rasterm

/-- C8: when `$TERM_GRAPHICS` is set to `"none"`, all three protocol
`Available()` predicates are false whatever the other environment signals
and the detection oracle say; when it is set to `"kitty"`,
`KittyEncoder.Available()` is true whatever `$TERM` and `$TERM_PROGRAM`
say. -/
theorem termGraphics_override_precedence :
    (∀ env : Env, env.term_graphics = "none" →
      kittyAvailable env = false ∧ itermAvailable env = false ∧
        sixelAvailable env = false) ∧
    (∀ env : Env, env.term_graphics = "kitty" →
      kittyAvailable env = true) := by
  constructor
  · intro env h
    have hn : hasTermGraphics env "none" = true := by
      rw [hasTermGraphics, h]; decide
    refine ⟨?_, ?_, ?_⟩ <;>
      simp [kittyAvailable, itermAvailable, sixelAvailable, hn]
  · intro env h
    have hn : hasTermGraphics env "none" = false := by
      rw [hasTermGraphics, h]; decide
    have hk : hasTermGraphics env "kitty" = true := by
      rw [hasTermGraphics, h]; decide
    simp [kittyAvailable, hn, hk]

/-- Witness for C8 at concrete environments: `TERM_GRAPHICS=none`
suppresses a terminal that looks like Kitty/iTerm/Sixel in every other
signal, and `TERM_GRAPHICS=kitty` forces Kitty on a dumb terminal. -/
theorem termGraphics_override_precedence_witness :
    (kittyAvailable
        ⟨"none", "xterm-kitty", "wezterm", "iterm2",
          ⟨true, none, none, 4, [52, 59, 52], none, true, none⟩⟩ = false ∧
      itermAvailable
        ⟨"none", "xterm-kitty", "wezterm", "iterm2",
          ⟨true, none, none, 4, [52, 59, 52], none, true, none⟩⟩ = false ∧
      sixelAvailable
        ⟨"none", "xterm-kitty", "wezterm", "iterm2",
          ⟨true, none, none, 4, [52, 59, 52], none, true, none⟩⟩ = false) ∧
    kittyAvailable
      ⟨"kitty", "dumb", "", "",
        ⟨false, none, none, 0, [], none, false, none⟩⟩ = true :=
  ⟨termGraphics_override_precedence.1 _ rfl,
    termGraphics_override_precedence.2 _ rfl⟩

/-- C9: `UnmarshalText ∘ String` is the identity on `None`, `Kitty`,
`ITerm` and `Sixel`; the empty token parses to `Default`; any token whose
lowercasing is none of the four recognised ones parses to `None` (and
`UnmarshalText` never errors, which the model reflects by returning only
a value). -/
theorem termType_roundtrip :
    (∀ t : Nat, t = 0 ∨ t = 1 ∨ t = 2 ∨ t = 3 →
      termTypeUnmarshalText (termTypeString t) = t) ∧
    termTypeUnmarshalText "" = 255 ∧
    (∀ s : String, strToLower s ≠ "kitty" → strToLower s ≠ "iterm" →
      strToLower s ≠ "sixel" → strToLower s ≠ "" →
      termTypeUnmarshalText s = 0) := by
  refine ⟨?_, by decide, ?_⟩
  · rintro t (rfl | rfl | rfl | rfl) <;> decide
  · intro s h1 h2 h3 h4
    simp only [termTypeUnmarshalText, if_neg h1, if_neg h2, if_neg h3,
      if_neg h4]

/-- Witness for C9: round-trip at `Sixel`, and the unrecognised token
`"bogus"` parsing to `None`. -/
theorem termType_roundtrip_witness :
    termTypeUnmarshalText (termTypeString 3) = 3 ∧
      termTypeUnmarshalText "bogus" = 0 :=
  ⟨termType_roundtrip.1 3 (by decide),
    termType_roundtrip.2.2 "bogus" (by decide) (by decide) (by decide)
      (by decide)⟩

/-- C10: a `TermType` value with no registered encoder — `None = 0` or
any `uint8` value outside `{1, 2, 3, 255}` — has `Available() = false`,
and its `Encode` returns `ErrTermGraphicsNotAvailable` having written
nothing, whatever the registered encoders would do. -/
theorem termType_unregistered (k i s d : EncoderM) (typ : Nat)
    (_hlt : typ < 256) (h1 : typ ≠ 1) (h2 : typ ≠ 2) (h3 : typ ≠ 3)
    (h255 : typ ≠ 255) :
    termTypeAvailable k i s d typ = false ∧
      termTypeEncode k i s d typ = ([], some .graphicsNotAvailable) := by
  simp [termTypeAvailable, termTypeEncode, encodersMap, h1, h2, h3, h255]

/-- Witness for C10 at `typ = None = 0` with encoders that are all
available and would all write output. -/
theorem termType_unregistered_witness :
    termTypeAvailable ⟨true, ([10], none)⟩ ⟨true, ([20], none)⟩
        ⟨true, ([30], none)⟩ ⟨true, ([40], none)⟩ 0 = false ∧
      termTypeEncode ⟨true, ([10], none)⟩ ⟨true, ([20], none)⟩
        ⟨true, ([30], none)⟩ ⟨true, ([40], none)⟩ 0 =
        ([], some .graphicsNotAvailable) :=
  termType_unregistered _ _ _ _ 0 (by decide) (by decide) (by decide)
    (by decide) (by decide)

end Rasterm

namespace Rasterm

/-- C6: resolution walks the registered list `{Kitty, ITerm, Sixel}` in
that order and picks the first available encoder; when none is available,
`DefaultEncoder.Encode` returns exactly `ErrTermGraphicsNotAvailable`
with nothing written to the output stream. -/
theorem default_resolver_order (env : Env)
    (ke ie se : List Nat × Option GoError) :
    (onceDo (defaultList env ke ie se) freshDefault).r =
      (if kittyAvailable env then some ⟨true, ke⟩
       else if itermAvailable env then some ⟨true, ie⟩
       else if sixelAvailable env then some ⟨true, se⟩
       else none) ∧
    (kittyAvailable env = false → itermAvailable env = false →
      sixelAvailable env = false →
      (defaultEncode (defaultList env ke ie se) freshDefault).2 =
        ([], some .graphicsNotAvailable)) := by
  constructor
  · rcases hk : kittyAvailable env <;> rcases hi : itermAvailable env <;>
      rcases hs : sixelAvailable env <;>
      simp [defaultList, onceDo, freshDefault, initBody, List.find?, hk, hi, hs]
  · intro hk hi hs
    simp [defaultList, defaultEncode, onceDo, freshDefault, initBody,
      List.find?, hk, hi, hs]

/-- Witness for C6 on a `TERM_GRAPHICS=none` environment, where no
encoder is available and `Encode` yields the cached error with no
output. -/
theorem default_resolver_order_witness :
    (defaultEncode
        (defaultList
          ⟨"none", "xterm-kitty", "wezterm", "iterm2",
            ⟨true, none, none, 4, [52, 59, 52], none, true, none⟩⟩
          ([10], none) ([20], none) ([30], none))
        freshDefault).2 = ([], some .graphicsNotAvailable) :=
  (default_resolver_order _ ([10], none) ([20], none) ([30], none)).2
    (by decide) (by decide) (by decide)

/-- C7: the resolution cache is write-once.  `once.Do` always leaves the
has-run flag set; any sequence of `Available`/`Encode` calls on a state
whose flag is set leaves the whole triple unchanged (so every later call
observes the same chosen encoder and cached error); and starting from the
fresh encoder, any call sequence runs the probing body at most once. -/
theorem default_write_once :
    (∀ (v : List EncoderM) (s : DState), (onceDo v s).onceDone = true) ∧
    (∀ (v : List EncoderM) (s : DState) (ops : List DOp),
      s.onceDone = true → runOps v ops s = s) ∧
    (∀ (v : List EncoderM) (ops : List DOp),
      (runOps v ops freshDefault).probes ≤ 1) := by
  have hdone : ∀ (v : List EncoderM) (s : DState),
      (onceDo v s).onceDone = true := by
    intro v s
    by_cases h : s.onceDone
    · simp [onceDo, h]
    · simp only [onceDo, if_neg h]
  have hstep : ∀ (v : List EncoderM) (s : DState) (op : DOp),
      s.onceDone = true → dStep v s op = s := by
    intro v s op h
    have ho : onceDo v s = s := by simp [onceDo, h]
    cases op
    · simp [dStep, defaultAvailable, ho]
    · simp only [dStep, defaultEncode, ho]
      split
      · rfl
      · cases hr : s.r <;> simp [hr]
  have hrun : ∀ (v : List EncoderM) (ops : List DOp) (s : DState),
      s.onceDone = true → runOps v ops s = s := by
    intro v ops
    induction ops with
    | nil => intro s _; rfl
    | cons op rest ih =>
      intro s h
      show runOps v rest (dStep v s op) = s
      rw [hstep v s op h, ih s h]
  refine ⟨hdone, fun v s ops h => hrun v ops s h, ?_⟩
  intro v ops
  cases ops with
  | nil => simp [runOps, freshDefault]
  | cons op rest =>
    have h1 : dStep v freshDefault op = onceDo v freshDefault := by
      cases op
      · rfl
      · simp only [dStep, defaultEncode]
        split
        · rfl
        · cases hr : (onceDo v freshDefault).r <;> simp [hr]
    have hp : (onceDo v freshDefault).probes = 1 := by
      simp only [onceDo, freshDefault]
      simp [initBody]
      cases h : List.find? (fun z => z.avail) v <;> simp [h]
    show (runOps v rest (dStep v freshDefault op)).probes ≤ 1
    rw [h1, hrun v rest _ (hdone v freshDefault), hp]

/-- Witness for C7: on a concrete resolved state, an
`Available`-then-`Encode` sequence leaves the cached triple untouched. -/
theorem default_write_once_witness :
    runOps [⟨true, ([10], none)⟩] [DOp.avail, DOp.encode]
      ⟨some ⟨true, ([10], none)⟩, none, true, 1⟩ =
      ⟨some ⟨true, ([10], none)⟩, none, true, 1⟩ :=
  default_write_once.2.1 [⟨true, ([10], none)⟩]
    ⟨some ⟨true, ([10], none)⟩, none, true, 1⟩ [DOp.avail, DOp.encode] rfl

end Rasterm

namespace Rasterm

/-- C1: once the race is reached (terminal input, raw mode entered,
request written) and the mode restore itself succeeds, the call returns
the bytes read with no error exactly when the read returned a positive
count **and** the 1/16-second timer had already fired; a fired timer with
zero bytes read yields `ErrTermResponseTimedOut`; and in every other
outcome no data is returned. -/
theorem race_result (env : TermEnv)
    (ht : env.isTerminal = true) (hraw : env.makeRawErr = none)
    (hw : env.writeErr = none) (hres : env.restoreErr = none) :
    (termRequestResponse env = (some (env.readBytes.take env.readN), none) ↔
      0 < env.readN ∧ env.timerFired = true) ∧
    (env.timerFired = true → env.readN = 0 →
      termRequestResponse env = (none, some .timedOut)) ∧
    (¬(0 < env.readN ∧ env.timerFired = true) →
      (termRequestResponse env).1 = none) := by
  simp only [termRequestResponse, termRequestResponseFull, ht, hraw, hw, hres,
    Bool.not_true, Option.map_none]
  rcases htf : env.timerFired with _ | _
  · simp only [if_neg (Bool.false_ne_true)]
    rcases hre : env.readErr with _ | e
    · simp
    · simp
  · rcases hn : env.readN with _ | n
    · simp
    · simp

/-- Witness for C1: a 2-byte read after a fired timer comes back as data
with no error. -/
theorem race_result_witness :
    termRequestResponse
      ⟨true, none, none, 2, [27, 91, 99], none, true, none⟩ =
      (some (List.take 2 [27, 91, 99]), none) :=
  (race_result ⟨true, none, none, 2, [27, 91, 99], none, true, none⟩
    rfl rfl rfl rfl).1.mpr ⟨by decide, rfl⟩

/-- C2: on every execution that successfully entered raw mode, the
terminal mode is restored exactly once, as the last event before the call
returns, after the read and after the timer-helper goroutine completed
(whenever those events occur at all); and on the paths that reach the
race both do occur before the restore. -/
theorem restore_ordering (env : TermEnv)
    (ht : env.isTerminal = true) (hraw : env.makeRawErr = none) :
    (termRequestResponseTrace env).count .restored = 1 ∧
    (termRequestResponseTrace env).getLast? = some .restored ∧
    precedes .readDone .restored (termRequestResponseTrace env) ∧
    precedes .helperDone .restored (termRequestResponseTrace env) ∧
    (env.writeErr = none →
      Ev.readDone ∈ termRequestResponseTrace env ∧
      Ev.helperDone ∈ termRequestResponseTrace env) := by
  have hwtr : env.writeErr = none →
      termRequestResponseTrace env =
        [.rawEntered, .reqWritten, .readDone, .helperDone, .restored] := by
    intro hw
    simp only [termRequestResponseTrace, termRequestResponseFull, ht, hraw, hw,
      Bool.not_true, Bool.false_eq_true, if_false]
    split <;> split <;> rfl
  have htr : termRequestResponseTrace env = [.rawEntered, .restored] ∨
      termRequestResponseTrace env =
        [.rawEntered, .reqWritten, .readDone, .helperDone, .restored] := by
    rcases hw : env.writeErr with _ | e
    · exact Or.inr (hwtr hw)
    · left
      simp only [termRequestResponseTrace, termRequestResponseFull, ht, hraw,
        hw, Bool.not_true, Bool.false_eq_true, if_false]
  rcases htr with htr | htr <;>
    rw [htr] <;>
    refine ⟨by decide, by decide, by unfold precedes; decide,
      by unfold precedes; decide, ?_⟩
  · intro hw
    rw [hwtr hw] at htr
    simp at htr
  · intro _; decide

/-- Witness for C2: on a full race execution the restore event happens
exactly once. -/
theorem restore_ordering_witness :
    (termRequestResponseTrace
      ⟨true, none, none, 2, [27, 91, 99], none, true, none⟩).count
      Ev.restored = 1 :=
  (restore_ordering ⟨true, none, none, 2, [27, 91, 99], none, true, none⟩
    rfl rfl).1

/-- C3: `hasSixelSupport` is true exactly when the device-attributes
query succeeded and the parsed sequence holds the value `4` at an index
other than 0; in particular every failed detection yields `false`, and
the function is boolean-valued — no error reaches its caller. -/
theorem hasSixel_iff (env : TermEnv) :
    hasSixelSupport env = true ↔
      ∃ attrs, termAttributes env = .ok attrs ∧
        ∃ i, 0 < i ∧ attrs[i]? = some 4 := by
  unfold hasSixelSupport
  cases h : termAttributes env with
  | error e => simp
  | ok attrs =>
    simp only [List.any_eq_true, Except.ok.injEq]
    constructor
    · rintro ⟨⟨i, a⟩, hmem, hp⟩
      simp only [decide_eq_true_eq, Bool.and_eq_true] at hp
      refine ⟨attrs, rfl, i, hp.1, ?_⟩
      have hg := List.mk_mem_enum_iff_getElem?.mp hmem
      rw [hg, hp.2]
    · rintro ⟨attrs', heq, i, hi, hget⟩
      subst heq
      exact ⟨(i, 4), List.mk_mem_enum_iff_getElem?.mpr hget, by simp [hi]⟩

/-- All the chunk-stream properties of `chunkEncode` at once for a
positive chunk size and non-empty buffer: chunk count is
`ceil(length/size)`, all chunks but the last carry flag 1, the last
carries flag 0, and the payloads concatenate back to the buffer. -/
theorem chunkEncode_spec (size : Nat) (hs : size ≠ 0) :
    ∀ (buf : List Nat), buf ≠ [] →
      (chunkEncode size buf).length = (buf.length + size - 1) / size ∧
      (∀ c ∈ (chunkEncode size buf).dropLast, c.1 = 1) ∧
      (∃ p, (chunkEncode size buf).getLast? = some (0, p)) ∧
      ((chunkEncode size buf).map Prod.snd).flatten = buf := by
  suffices h : ∀ (n : Nat) (buf : List Nat), buf.length = n → buf ≠ [] →
      (chunkEncode size buf).length = (buf.length + size - 1) / size ∧
      (∀ c ∈ (chunkEncode size buf).dropLast, c.1 = 1) ∧
      (∃ p, (chunkEncode size buf).getLast? = some (0, p)) ∧
      ((chunkEncode size buf).map Prod.snd).flatten = buf by
    exact fun buf => h buf.length buf rfl
  intro n
  induction n using Nat.strong_induction_on with
  | _ n ih =>
    intro buf hn hb
    have hpos : 0 < size := Nat.pos_of_ne_zero hs
    by_cases hle : buf.length ≤ size
    · have heq : chunkEncode size buf = [(0, buf)] := by
        rw [chunkEncode, if_neg (by tauto), if_pos hle]
      have hb1 : 1 ≤ buf.length := List.length_pos.mpr hb
      refine ⟨?_, ?_, ?_, ?_⟩
      · rw [heq]
        have h1 : buf.length + size - 1 = (buf.length - 1) + size := by omega
        rw [List.length_singleton, h1, Nat.add_div_right _ hpos,
          Nat.div_eq_of_lt (by omega)]
      · rw [heq]; intro c hc; simp at hc
      · rw [heq]; exact ⟨buf, rfl⟩
      · rw [heq]; simp
    · have heq : chunkEncode size buf =
          (1, buf.take size) :: chunkEncode size (buf.drop size) := by
        rw [chunkEncode, if_neg (by tauto), if_neg hle]
      push_neg at hle
      have hdlen : (buf.drop size).length = buf.length - size := by simp
      have hdne : buf.drop size ≠ [] := by
        intro hnil
        have := congrArg List.length hnil
        simp at this
        omega
      have hrec := ih (buf.drop size).length (by omega) (buf.drop size) rfl hdne
      have hcne : chunkEncode size (buf.drop size) ≠ [] := by
        intro hnil
        rcases hrec.2.2.1 with ⟨p, hp⟩
        rw [hnil] at hp
        simp at hp
      refine ⟨?_, ?_, ?_, ?_⟩
      · rw [heq, List.length_cons, hrec.1, hdlen]
        have h2 : buf.length + size - 1 =
            ((buf.length - size) + size - 1) + size := by omega
        rw [h2, Nat.add_div_right _ hpos]
      · intro c hc
        rw [heq, List.dropLast_cons_of_ne_nil hcne] at hc
        rcases List.mem_cons.mp hc with rfl | hc
        · rfl
        · exact hrec.2.1 c hc
      · rcases hrec.2.2.1 with ⟨p, hp⟩
        refine ⟨p, ?_⟩
        rw [heq]
        rcases List.exists_cons_of_ne_nil hcne with ⟨c, cs, hcs⟩
        rw [hcs] at hp ⊢
        rw [List.getLast?_cons_cons]
        exact hp
      · rw [heq]
        simp only [List.map_cons, List.flatten_cons, hrec.2.2.2]
        exact List.take_append_drop size buf

/-- C4: for a non-empty payload of `N` bytes the Kitty framer emits
exactly `⌈N/4096⌉` chunk control sequences after the preamble, every
chunk but the last carrying continuation flag `m = 1`, the last carrying
`m = 0`, and the chunk payloads concatenating back to the payload. -/
theorem kitty_chunking (buf : List Nat) (hb : buf ≠ []) :
    (chunkEncode 4096 buf).length = (buf.length + 4095) / 4096 ∧
    (∀ c ∈ (chunkEncode 4096 buf).dropLast, c.1 = 1) ∧
    (∃ p, (chunkEncode 4096 buf).getLast? = some (0, p)) ∧
    ((chunkEncode 4096 buf).map Prod.snd).flatten = buf := by
  have h := chunkEncode_spec 4096 (by decide) buf hb
  have he : buf.length + 4096 - 1 = buf.length + 4095 := by omega
  rw [he] at h
  exact h

/-- Witness for C4 at the 3-byte payload `[1, 2, 3]`. -/
theorem kitty_chunking_witness :
    ((chunkEncode 4096 [1, 2, 3]).map Prod.snd).flatten = [1, 2, 3] :=
  (kitty_chunking [1, 2, 3] (by decide)).2.2.2

/-- C5: the failing input of the empty-payload claim.  For `buf = []`
the Go loop body (`for i := 0; i < n; ...` with `n = 0`) never runs, so
`chunkEncode` emits **no** chunk control sequence after the `m=1`
preamble — not the single `m = 0` terminator chunk the specification
requires for a well-formed stream. -/
theorem chunkEncode_empty : chunkEncode 4096 [] = [] := by
  rw [chunkEncode]
  simp

end Rasterm
